import Mathlib

/-!
Verification development for the tcg-scraper fetch-and-write pipeline
(`src/python/tcg-scraper/scraper.py`).

The embedding models the concurrent bounded-queue fetch-and-write core as a
sequence of atomic events.  This is sound for the properties below because
the only cross-component mutable state, the global `seen_sellers` set, is
read and mutated exclusively inside await-free regions of
`fetch_product_data` (the seller loop contains no suspension point), so
under asyncio's single-threaded cooperative scheduling each fetch's
set-update is atomic, and the effective `write_data` never touches the set.
-/

namespace Scraper

/-- Python runtime values, as far as the pipeline's record shapes need them.
Numeric record fields that are floats in the source (prices, ratings) are
modelled as integers; no claim performs arithmetic on them. -/
inductive PyVal where
  | none
  | int (n : Int)
  | str (s : String)
  | bool (b : Bool)
  | list (xs : List PyVal)
  | dict (xs : List (String × PyVal))
  deriving Repr

/-- Python truthiness (`if x:`): `None`, `0`, `""`, `False`, `[]`, `{}` are falsy. -/
def PyVal.truthy : PyVal → Bool
  | .none => false
  | .int n => n != 0
  | .str s => s != ""
  | .bool b => b
  | .list xs => !xs.isEmpty
  | .dict xs => !xs.isEmpty

/-- `v is None`. -/
def PyVal.isNone : PyVal → Bool
  | .none => true
  | _ => false

/-- The values of a Python dict, in insertion order. -/
def PyVal.dictValues : PyVal → List PyVal
  | .dict xs => xs.map Prod.snd
  | _ => []

/-- The keys of a Python dict, in insertion order. -/
def PyVal.dictKeys : PyVal → List String
  | .dict xs => xs.map Prod.fst
  | _ => []

/-- `v[k]` on a Python dict value, as an optional lookup. -/
def PyVal.field (v : PyVal) (k : String) : Option PyVal :=
  match v with
  | .dict xs => (xs.find? (fun p => p.fst == k)).map Prod.snd
  | _ => Option.none

/-- `isinstance(v, int)` on a Python value. -/
def isinstance_int : PyVal → Bool
  | .int _ => true
  | _ => false

/-- One aggregation bucket of the catalog response
(`{"value": ..., "count": ...}`). -/
structure AggBucket where
  value : String
  count : Int
  deriving DecidableEq, Repr

/-- One listing entry of the decoded JSON response.  Each field is optional:
the response is dynamic JSON, and `listing["field"]` raises `KeyError` when
the field is absent — which the source only catches at the granularity of
the whole parse block. -/
structure RawListing where
  sellerKey : Option String
  productConditionId : Option Int
  printing : Option String
  condition : Option String
  directInventory : Option Int
  quantity : Option Int
  price : Option Int
  sellerShippingPrice : Option Int
  sellerId : Option Int
  sellerName : Option String
  sellerRating : Option Int
  sellerSales : Option Int
  verifiedSeller : Option Bool
  goldSeller : Option Bool
  deriving DecidableEq, Repr

/-- The decoded `response["results"][0]` object. -/
structure RawResponse where
  totalResults : Int
  conditions : List AggBucket
  listingTypes : List AggBucket
  printings : List AggBucket
  listings : List RawListing
  deriving DecidableEq, Repr

/-- What the network and `response.json()` yield for one fetch attempt:
a non-ok HTTP status, an exception from the request itself, a JSON body
that fails to decode, or a decoded body. -/
inductive FetchInput where
  | httpError (status : Nat)
  | networkError (msg : String)
  | jsonError (msg : String)
  | ok (r : RawResponse)
  deriving DecidableEq, Repr

/-- Structured content of the `logging.error` calls of `fetch_product_data`:
each carries exactly what the source's f-string interpolates. -/
inductive LogMsg where
  | fetchHttpFail (product_id : String) (status : Nat)
  | fetchParseFail (product_id : String) (msg : String)
  | fetchNetFail (product_id : String) (msg : String)
  deriving DecidableEq, Repr

/-- `seller_data[seller_key] = {...}`: the seller dict built from one
listing, provided all six seller fields are present; accessing a missing
field raises, which aborts the whole parse (after `seen_sellers.add`). -/
def mkSellerRecord (key : String) (l : RawListing) : Option PyVal :=
  match l.sellerId, l.sellerName, l.sellerRating, l.sellerSales,
      l.verifiedSeller, l.goldSeller with
  | some sid, some sname, some srating, some ssales, some v, some g =>
      some (.dict [("seller_key", .str key), ("seller_id", .int sid),
        ("seller_name", .str sname), ("seller_rating", .int srating),
        ("seller_sales", .int ssales), ("verified", .bool v),
        ("gold_star", .bool g)])
  | _, _, _, _, _, _ => Option.none

/-- The listing dict built from one listing for `listing_data`; the eight
fields are accessed in source order, any missing one raises.  The
`product_id` field is added per the source. -/
def mkListingRecord (pid : String) (l : RawListing) : Option PyVal :=
  match l.sellerKey, l.productConditionId, l.printing, l.condition,
      l.directInventory, l.quantity, l.price, l.sellerShippingPrice with
  | some key, some pcid, some pr, some c, some di, some q, some p, some sp =>
      some (.dict [("product_id", .str pid), ("seller_key", .str key),
        ("tcg_id", .int pcid), ("printing", .str pr), ("condition", .str c),
        ("direct_quantity", .int di), ("quantity", .int q),
        ("price", .int p), ("shipping_price", .int sp)])
  | _, _, _, _, _, _, _, _ => Option.none

/-- The `listing_data` list comprehension: builds every listing record, and
the first missing field aborts the whole comprehension. -/
def buildListingData (pid : String) (ls : List RawListing) : Option (List PyVal) :=
  ls.mapM (mkListingRecord pid)

/-- Python dict-comprehension insertion: a later pair with the same key
overwrites the earlier one in place. -/
def dictInsert (xs : List (String × PyVal)) (k : String) (v : PyVal) :
    List (String × PyVal) :=
  if xs.any (fun p => p.fst == k) then
    xs.map (fun p => if p.fst == k then (k, v) else p)
  else xs ++ [(k, v)]

/-- A dict comprehension `{b["value"]: b["count"] for b in buckets}`. -/
def bucketsToDict (bs : List AggBucket) : PyVal :=
  .dict (bs.foldl (fun acc b => dictInsert acc b.value (.int b.count)) [])

/-- The `product_data` dict of `fetch_product_data`. -/
def buildProductData (pid : String) (r : RawResponse) : PyVal :=
  .dict [("product_id", .str pid), ("totalResults", .int r.totalResults),
    ("conditions", bucketsToDict r.conditions),
    ("listingTypes", bucketsToDict r.listingTypes),
    ("printings", bucketsToDict r.printings)]

/-- The `seller_data` loop of `fetch_product_data`, with the global
`seen_sellers` set threaded through (modelled as the list of keys added so
far; only membership matters).  For each listing: read `sellerKey`, skip it
when already seen, otherwise add it to the set FIRST and then build the
record — so a listing missing a seller field aborts the parse with the key
already consumed.  Returns `(Option seller_data, seen')`: `none` means the
loop raised. -/
def sellerLoop : List RawListing → List String →
    Option (List (String × PyVal)) × List String
  | [], seen => (some [], seen)
  | l :: ls, seen =>
    match l.sellerKey with
    | Option.none => (Option.none, seen)
    | some key =>
      if key ∈ seen then sellerLoop ls seen
      else
        match mkSellerRecord key l with
        | Option.none => (Option.none, key :: seen)
        | some rec =>
          ((sellerLoop ls (key :: seen)).1.map (fun rest => (key, rec) :: rest),
           (sellerLoop ls (key :: seen)).2)

/-- Result of one call of `fetch_product_data`: the Python return triple,
the global `seen_sellers` set afterwards, the `logging.error` output, and
the JSON bodies of the POST requests issued. -/
structure FetchResult where
  ret : PyVal × PyVal × PyVal
  seen : List String
  log : List LogMsg
  requests : List PyVal
  deriving Repr

/-- The fixed filter/sort JSON body `data` of `fetch_product_data`.  The
page size is the literal `50` in the source. -/
def request_payload : PyVal :=
  .dict [
    ("filters", .dict [
      ("term", .dict [("sellerStatus", .str "Live"), ("channelId", .int 0),
        ("language", .list [.str "English"])]),
      ("range", .dict [("quantity", .dict [("gte", .int 1)])]),
      ("exclude", .dict [("channelExclusion", .int 0)])]),
    ("from", .int 0),
    ("size", .int 50),
    ("sort", .dict [("field", .str "price"), ("order", .str "asc")]),
    ("context", .dict [("shippingCountry", .str "US"), ("cart", .dict [])]),
    ("aggregations", .list [.str "listingType"])]

/-- The failure return value `None, None, None`. -/
def noneTriple : PyVal × PyVal × PyVal := (.none, .none, .none)

/-- `fetch_product_data(product_id, session, semaphore)`: issues one POST
with the fixed payload; on non-ok status or a raised exception returns
`None, None, None` after logging the product id and status/error; on a
decoded body builds `product_data`, `listing_data` and `seller_data`
(mutating `seen_sellers`), where any missing field during parsing is the
`KeyError` caught by the inner `except` — still returning `None, None,
None`.  Every exception path is caught, so the function is total. -/
def fetch_product_data (pid : String) (inp : FetchInput) (seen : List String) :
    FetchResult :=
  match inp with
  | .httpError status =>
      ⟨noneTriple, seen, [.fetchHttpFail pid status], [request_payload]⟩
  | .networkError msg =>
      ⟨noneTriple, seen, [.fetchNetFail pid msg], [request_payload]⟩
  | .jsonError msg =>
      ⟨noneTriple, seen, [.fetchParseFail pid msg], [request_payload]⟩
  | .ok r =>
      let product_data := buildProductData pid r
      match buildListingData pid r.listings with
      | Option.none =>
          ⟨noneTriple, seen, [.fetchParseFail pid "KeyError"], [request_payload]⟩
      | some listing_data =>
          match sellerLoop r.listings seen with
          | (Option.none, seen') =>
              ⟨noneTriple, seen', [.fetchParseFail pid "KeyError"],
                [request_payload]⟩
          | (some seller_data, seen') =>
              ⟨(product_data, .list listing_data, .dict seller_data),
                seen', [], [request_payload]⟩

/-- The three append-only sinks (`product_data.jsonl`, `listings.jsonl`,
`sellers.jsonl`), each a list of appended JSON records in append order. -/
structure Sinks where
  products : List PyVal
  listings : List PyVal
  sellers : List PyVal
  deriving Repr

/-- The body of the effective `write_data` (the second definition in the
source shadows the first) applied to one triple taken from `data_queue`:
`if product_data:` append it; `if listing_data:` append each entry;
`if seller_data_dict is not None:` append every value of the dict — with no
look at `seen_sellers`. -/
def write_data_step (s : Sinks) (t : PyVal × PyVal × PyVal) : Sinks :=
  let s :=
    if t.1.truthy then { s with products := s.products ++ [t.1] } else s
  let s :=
    if t.2.1.truthy then
      { s with listings := s.listings ++ (match t.2.1 with
          | .list xs => xs | _ => []) }
    else s
  if !t.2.2.isNone then
    { s with sellers := s.sellers ++ t.2.2.dictValues }
  else s

/-- The body of the first, shadowed `write_data` definition, which did
consult and extend `seen_sellers` before each seller append; kept for
comparison with the spec, it is dead code in the source. -/
def write_data_v1_step (s : Sinks) (seen : List String)
    (t : PyVal × PyVal × PyVal) : Sinks × List String :=
  let s :=
    if t.1.truthy then { s with products := s.products ++ [t.1] } else s
  let s :=
    if t.2.1.truthy then
      { s with listings := s.listings ++ (match t.2.1 with
          | .list xs => xs | _ => []) }
    else s
  match t.2.2 with
  | .dict xs =>
      if (PyVal.dict xs).truthy then
        xs.foldl (fun (acc : Sinks × List String) kv =>
          if kv.fst ∈ acc.2 then acc
          else ({ acc.1 with sellers := acc.1.sellers ++ [kv.snd] },
            kv.fst :: acc.2)) (s, seen)
      else (s, seen)
  | _ => (s, seen)

/-- Effect of one worker-loop iteration on one dequeued `product_id`:
`tqdm` progress advances (the `finally` block), the ids put back on
`product_queue`, and the triples put on `data_queue`.  The
`isinstance(product_data, int)` branch re-enqueues; otherwise the triple is
forwarded.  The `except` branch of the source worker is unreachable here
because `fetch_product_data` catches every exception it can raise and is
embedded as a total function. -/
structure WorkerEffect where
  requeued : List String
  forwarded : List (PyVal × PyVal × PyVal)
  progress : Nat
  deriving Repr

/-- One worker iteration: dequeue `pid`, fetch (threading `seen_sellers`),
branch on the integer test, then `task_done` and `progress_bar.update(1)`. -/
def worker_step (pid : String) (inp : FetchInput) (seen : List String) :
    WorkerEffect × List String :=
  if isinstance_int (fetch_product_data pid inp seen).ret.1 then
    (⟨[pid], [], 1⟩, (fetch_product_data pid inp seen).seen)
  else
    (⟨[], [(fetch_product_data pid inp seen).ret], 1⟩,
     (fetch_product_data pid inp seen).seen)

/-- Whole-pipeline state: the global `seen_sellers` set, the sinks, and the
total number of progress-bar advances. -/
structure RunState where
  seen : List String
  sinks : Sinks
  progress : Nat
  deriving Repr

def initState : RunState := ⟨[], ⟨[], [], []⟩, 0⟩

/-- One atomic pipeline event: a worker dequeues `pid`, fetches against the
environment's response, and the writer drains everything the worker
forwarded (by `data_queue.join()` every forwarded triple is eventually
written, and `seen_sellers` is not read by the effective writer, so
draining immediately is equivalent for the recorded state). -/
def run_step (st : RunState) (a : String × FetchInput) : RunState :=
  { seen := (worker_step a.1 a.2 st.seen).2,
    sinks := (worker_step a.1 a.2 st.seen).1.forwarded.foldl
      write_data_step st.sinks,
    progress := st.progress + (worker_step a.1 a.2 st.seen).1.progress }

/-- A run processing the given attempts in order.  Re-enqueued ids would
reappear as later attempts; `worker_requeues_nothing` shows there are
none. -/
def run_pipeline (attempts : List (String × FetchInput)) : RunState :=
  attempts.foldl run_step initState

/-- The worker loop driven by the actual `product_queue` contents, with
explicit fuel (one unit per dequeue): ids put back by a worker iteration go
to the back of the queue.  `env` gives the network's response for each
attempt. -/
def run_queue (env : String → FetchInput) :
    Nat → List String → RunState → RunState
  | 0, _, st => st
  | _ + 1, [], st => st
  | fuel + 1, pid :: rest, st =>
      run_queue env fuel
        (rest ++ (worker_step pid (env pid) st.seen).1.requeued)
        (run_step st (pid, env pid))

/-- The `seller_key` field(s) of one appended seller record. -/
def recKeys : PyVal → List String
  | .dict xs => xs.filterMap (fun kv =>
      if kv.fst = "seller_key" then
        match kv.snd with | .str s => some s | _ => Option.none
      else Option.none)
  | _ => []

/-- The sequence of seller keys ever appended to the seller sink. -/
def sellerSinkKeys (st : RunState) : List String :=
  st.sinks.sellers.flatMap recKeys

/-- Run invariant: the seller sink holds each key at most once, and every
key it holds is a member of the global `seen_sellers` set. -/
def SinkInv (st : RunState) : Prop :=
  (sellerSinkKeys st).Nodup ∧ ∀ k ∈ sellerSinkKeys st, k ∈ st.seen

/-- A category entry parsed from the sitemap index:
`{"Category": ..., "Link": ...}`. -/
structure CategoryDescriptor where
  category : String
  link : String
  deriving DecidableEq, Repr

/-- One Levenshtein DP row update, walking the remaining characters of the
second word with the old row aligned at the previous column. -/
def levRow (ca : Char) : List Char → List Nat → Nat → List Nat
  | [], _, _ => []
  | cb :: bs, oldRow, left =>
    let diag := oldRow.headD 0
    let up := (oldRow.tailD []).headD 0
    let cost := if ca = cb then diag else diag + 1
    let v := min (min (up + 1) (left + 1)) cost
    v :: levRow ca bs (oldRow.tailD []) v

/-- Levenshtein edit distance by row dynamic programming. -/
def levenshtein (a b : List Char) : Nat :=
  let final := a.foldl (fun row ca =>
    let first := row.headD 0 + 1
    first :: levRow ca b row first) (List.range (b.length + 1))
  final.getLastD 0

/-- Modelled from the spec: the fuzzy string matching utility
(`fuzzywuzzy.process.extractOne`'s scorer) is an external collaborator whose
code is not part of this repository; the spec describes it only as
"approximate string similarity scoring".  Modelled as a normalized
Levenshtein similarity on a 0–100 scale. -/
def similarity_score (term name : String) : Nat :=
  let a := term.toList
  let b := name.toList
  let m := max a.length b.length
  if m = 0 then 100 else (100 * (m - levenshtein a b)) / m

/-- Modelled from the spec: `process.extractOne(search_term, names)` —
returns the choice with the highest score, keeping the earliest on ties
(Python's `max` keeps the first maximal element), and `None` on an empty
choice list (which the caller's `except` turns into an overall `None`). -/
def extractOne (term : String) : List String → Option (String × Nat)
  | [] => Option.none
  | c :: cs => some (cs.foldl (fun best c' =>
      if similarity_score term c' > best.2
      then (c', similarity_score term c') else best)
      (c, similarity_score term c))

/-- `find_best_category_match(categories, search_term)`: scores the category
names, then returns the first category whose name equals the best-scoring
name, or `None` when anything (including an empty list) fails. -/
def find_best_category_match (categories : List CategoryDescriptor)
    (search_term : String) : Option CategoryDescriptor :=
  match extractOne search_term (categories.map (fun c => c.category)) with
  | Option.none => Option.none
  | some (best, _) => categories.find? (fun c => c.category == best)

/-- A `<url>` element of a category sitemap; `loc = none` models a `<url>`
without a `<loc>` child, on which `url.find(...).text` raises
`AttributeError`. -/
structure UrlEntry where
  loc : Option String
  deriving DecidableEq, Repr

/-- A category sitemap document as seen by `extract_product_ids`: either
`ET.fromstring` raises `ParseError`, or it yields the `<url>` entries in
document order. -/
inductive CategoryDoc where
  | malformed (msg : String)
  | parsed (urls : List UrlEntry)
  deriving DecidableEq, Repr

/-- Maximal digit run at the head of the character list, with the rest. -/
def digitSpan : List Char → List Char × List Char
  | [] => ([], [])
  | c :: cs =>
    if c.isDigit then
      let (d, r) := digitSpan cs
      (c :: d, r)
    else ([], c :: cs)

/-- The literal part of the pattern `/product/(\d+)/`. -/
def productPat : List Char := "/product/".toList

/-- Try to match `/product/(\d+)/` at the head of the list: the literal,
then a maximal non-empty digit run, then `/` (greedy `\d+` cannot backtrack
usefully here, since a shorter run would face a digit where `/` is
required). -/
def matchProductAt (s : List Char) : Option String :=
  if productPat.isPrefixOf s then
    let rest := s.drop productPat.length
    let (ds, r) := digitSpan rest
    if ds.isEmpty then Option.none
    else
      match r with
      | '/' :: _ => some (String.mk ds)
      | _ => Option.none
  else Option.none

/-- `re.search(r"/product/(\d+)/", url_text)`: the leftmost match's capture
group, scanning positions left to right. -/
def searchProductId : List Char → Option String
  | [] => Option.none
  | c :: cs =>
    match matchProductAt (c :: cs) with
    | some d => some d
    | Option.none => searchProductId cs

/-- The loop of `extract_product_ids`, accumulating matches in document
order; a `<url>` without `<loc>` raises, and the enclosing `except` throws
the partial accumulation away and returns `[]` with an error logged. -/
def extractLoop : List UrlEntry → List String → List String × Bool
  | [], acc => (acc, false)
  | u :: us, acc =>
    match u.loc with
    | Option.none => ([], true)
    | some txt =>
      match searchProductId txt.toList with
      | some i => extractLoop us (acc ++ [i])
      | Option.none => extractLoop us acc

/-- `extract_product_ids(xml_content)`: on a parse error logs and returns
`[]`; otherwise collects every `/product/(\d+)/` match in document order,
without deduplication.  The second component records whether the `except`
branch logged an error. -/
def extract_product_ids : CategoryDoc → List String × Bool
  | .malformed _ => ([], true)
  | .parsed urls => extractLoop urls []

/-- The request body shape asserted by the spec's endpoint contract, with
the page size as a configurable parameter `N` (spec default 50).  Stated
from the spec's words, for comparison with `request_payload`. -/
def claimPayload (N : Nat) : PyVal :=
  .dict [
    ("filters", .dict [
      ("term", .dict [("sellerStatus", .str "Live"), ("channelId", .int 0),
        ("language", .list [.str "English"])]),
      ("range", .dict [("quantity", .dict [("gte", .int 1)])]),
      ("exclude", .dict [("channelExclusion", .int 0)])]),
    ("from", .int 0),
    ("size", .int (N : Int)),
    ("sort", .dict [("field", .str "price"), ("order", .str "asc")]),
    ("context", .dict [("shippingCountry", .str "US"), ("cart", .dict [])]),
    ("aggregations", .list [.str "listingType"])]

/-- The `seller_rating` field of an appended seller record. -/
def sellerRatingOf : PyVal → Option Int
  | .dict xs =>
    match xs.filterMap (fun kv =>
        if kv.fst = "seller_rating" then
          match kv.snd with | .int n => some n | _ => Option.none
        else Option.none) with
    | [n] => some n
    | _ => Option.none
  | _ => Option.none

/-- A fully-populated listing entry for seller key `k` with the given
seller rating: concrete test data for the theorems below. -/
def sampleListing (k : String) (rating : Int) : RawListing :=
  ⟨some k, some 1, some "1st Edition", some "Near Mint", some 0, some 2,
   some 9, some 1, some 7, some (k ++ " store"), some rating, some 100,
   some true, some false⟩

/-- A listing whose `sellerKey` decodes but whose `sellerId` is absent, so
the seller loop raises after consuming the key. -/
def sampleBurnListing (k : String) : RawListing :=
  { sampleListing k 0 with sellerId := Option.none }

/-- A decoded response carrying the given listings. -/
def sampleResponse (ls : List RawListing) : RawResponse :=
  ⟨(ls.length : Int), [⟨"Near Mint", 1⟩], [⟨"standard", 1⟩],
   [⟨"1st Edition", 1⟩], ls⟩

/-- The seller record that `sampleListing k rating` decodes to. -/
def sampleSellerRecord (k : String) (rating : Int) : PyVal :=
  .dict [("seller_key", .str k), ("seller_id", .int 7),
    ("seller_name", .str (k ++ " store")), ("seller_rating", .int rating),
    ("seller_sales", .int 100), ("verified", .bool true),
    ("gold_star", .bool false)]

/-- A small whole run: two successes sharing seller `A`, one HTTP failure. -/
def sampleAttempts : List (String × FetchInput) :=
  [("101", .ok (sampleResponse [sampleListing "A" 5, sampleListing "B" 2])),
   ("102", .ok (sampleResponse [sampleListing "A" 9])),
   ("103", .httpError 503)]

/-- The categories of the spec's category-resolution test case. -/
def sampleCategories : List CategoryDescriptor :=
  [⟨"pokemon", "http://www.tcgplayer.com/sitemap/pokemon.xml"⟩,
   ⟨"magic", "http://www.tcgplayer.com/sitemap/magic.xml"⟩,
   ⟨"yugioh", "http://www.tcgplayer.com/sitemap/yugioh.xml"⟩]

/-! ### Helper lemmas -/

theorem mkSellerRecord_recKeys {k : String} {l : RawListing} {rec : PyVal}
    (h : mkSellerRecord k l = some rec) : recKeys rec = [k] := by
  unfold mkSellerRecord at h
  split at h
  · cases h
    rfl
  · cases h

theorem sellerLoop_seen_mono (ls : List RawListing) :
    ∀ seen, seen ⊆ (sellerLoop ls seen).2 := by
  induction ls with
  | nil => intro seen; simp [sellerLoop]
  | cons l ls ih =>
    intro seen
    unfold sellerLoop
    cases hk : l.sellerKey with
    | none => simp
    | some key =>
      by_cases hmem : key ∈ seen
      · simpa [hmem] using ih seen
      · simp only [hmem, if_false]
        cases hr : mkSellerRecord key l with
        | none => exact List.subset_cons_of_subset key (List.Subset.refl seen)
        | some rec =>
          exact fun a ha =>
            ih (key :: seen) (List.mem_cons_of_mem key ha)

theorem sellerLoop_success (ls : List RawListing) :
    ∀ seen sd seen', sellerLoop ls seen = (some sd, seen') →
      (∀ a, a ∈ seen' ↔ a ∈ sd.map Prod.fst ∨ a ∈ seen)
    ∧ (∀ k ∈ sd.map Prod.fst, k ∉ seen)
    ∧ (sd.map Prod.fst).Nodup
    ∧ (∀ k, k ∈ sd.map Prod.fst ↔
        k ∈ ls.filterMap RawListing.sellerKey ∧ k ∉ seen)
    ∧ (∀ k rec, (k, rec) ∈ sd →
        ∃ pre l post, ls = pre ++ l :: post ∧ l.sellerKey = some k
          ∧ (∀ l' ∈ pre, l'.sellerKey ≠ some k)
          ∧ mkSellerRecord k l = some rec) := by
  induction ls with
  | nil =>
    intro seen sd seen' h
    simp only [sellerLoop] at h
    cases h
    simp
  | cons l ls ih =>
    intro seen sd seen' h
    unfold sellerLoop at h
    split at h
    · simp at h
    · rename_i key hk
      split at h
      · rename_i hmem
        obtain ⟨hseen, hfresh, hnd, hiff, hentry⟩ := ih seen sd seen' h
        refine ⟨hseen, hfresh, hnd, ?_, ?_⟩
        · intro k
          rw [hiff k]
          simp only [List.filterMap_cons, hk, List.mem_cons]
          constructor
          · rintro ⟨h1, h2⟩; exact ⟨Or.inr h1, h2⟩
          · rintro ⟨h1 | h1, h2⟩
            · exact absurd (h1 ▸ hmem) h2
            · exact ⟨h1, h2⟩
        · intro k rec hk2
          obtain ⟨pre, l', post, hls, hkey, hpre, hrec⟩ := hentry k rec hk2
          have hkmem : k ∈ sd.map Prod.fst :=
            List.mem_map.mpr ⟨(k, rec), hk2, rfl⟩
          have hkne : k ≠ key := fun he => (hfresh k hkmem) (he ▸ hmem)
          exact ⟨l :: pre, l', post, by simp [hls], hkey,
            fun l'' hl'' => by
              rcases List.mem_cons.mp hl'' with h1 | h1
              · rw [h1, hk]; exact fun hc =>
                  hkne (by injection hc with h3; exact h3.symm)
              · exact hpre l'' h1, hrec⟩
      · rename_i hmem
        split at h
        · simp at h
        · rename_i rec hr
          have ho : (sellerLoop ls (key :: seen)).1.map
              (fun rest => (key, rec) :: rest) = some sd :=
            congrArg Prod.fst h
          have hs : (sellerLoop ls (key :: seen)).2 = seen' :=
            congrArg Prod.snd h
          obtain ⟨rest, hrest, hsd⟩ := Option.map_eq_some'.mp ho
          have hloop : sellerLoop ls (key :: seen) =
              (some rest, seen') := by
            rw [Prod.ext_iff]; exact ⟨hrest, hs⟩
          obtain ⟨hseen, hfresh, hnd, hiff, hentry⟩ :=
            ih (key :: seen) rest seen' hloop
          subst hsd
          refine ⟨?_, ?_, ?_, ?_, ?_⟩
          · intro a
            rw [hseen a]
            simp only [List.map_cons, List.mem_cons]
            tauto
          · intro k hkmem
            simp only [List.map_cons, List.mem_cons] at hkmem
            rcases hkmem with h1 | h1
            · exact h1 ▸ hmem
            · intro hc
              exact hfresh k h1 (List.mem_cons_of_mem key hc)
          · simp only [List.map_cons]
            refine List.nodup_cons.mpr ⟨?_, hnd⟩
            intro hc
            exact hfresh key hc (List.mem_cons_self key seen)
          · intro k
            simp only [List.map_cons, List.mem_cons, List.filterMap_cons, hk]
            constructor
            · rintro (h1 | h1)
              · exact ⟨Or.inl h1, h1 ▸ hmem⟩
              · obtain ⟨h2, h3⟩ := (hiff k).mp h1
                exact ⟨Or.inr h2,
                  fun hc => h3 (List.mem_cons_of_mem key hc)⟩
            · rintro ⟨h1, h2⟩
              rcases h1 with h3 | h3
              · exact Or.inl h3
              · by_cases hke : k = key
                · exact Or.inl hke
                · exact Or.inr ((hiff k).mpr ⟨h3, by
                    intro hc
                    rcases List.mem_cons.mp hc with h4 | h4
                    · exact hke h4
                    · exact h2 h4⟩)
          · intro k rec' hk2
            rcases List.mem_cons.mp hk2 with h1 | h1
            · have he1 : k = key := congrArg Prod.fst h1
              have he2 : rec' = rec := congrArg Prod.snd h1
              exact ⟨[], l, ls, rfl, by rw [he1]; exact hk, by simp, by
                rw [he1, he2]; exact hr⟩
            · obtain ⟨pre, l', post, hls, hkey, hpre, hrec⟩ :=
                hentry k rec' h1
              have hkmem : k ∈ rest.map Prod.fst :=
                List.mem_map.mpr ⟨(k, rec'), h1, rfl⟩
              have hkne : k ≠ key := fun he =>
                hfresh k hkmem (he ▸ List.mem_cons_self key seen)
              exact ⟨l :: pre, l', post, by simp [hls], hkey,
                fun l'' hl'' => by
                  rcases List.mem_cons.mp hl'' with h2 | h2
                  · rw [h2, hk]; exact fun hc =>
                      hkne (by injection hc with h3; exact h3.symm)
                  · exact hpre l'' h2, hrec⟩

theorem fetch_ret_shape (pid : String) (inp : FetchInput) (seen : List String) :
    ((fetch_product_data pid inp seen).ret = noneTriple
      ∧ (fetch_product_data pid inp seen).ret.2.2 = PyVal.none)
  ∨ ∃ r ld sd, inp = .ok r
      ∧ buildListingData pid r.listings = some ld
      ∧ sellerLoop r.listings seen =
          (some sd, (fetch_product_data pid inp seen).seen)
      ∧ (fetch_product_data pid inp seen).ret =
          (buildProductData pid r, .list ld, .dict sd) := by
  cases inp with
  | httpError s => exact Or.inl ⟨rfl, rfl⟩
  | networkError m => exact Or.inl ⟨rfl, rfl⟩
  | jsonError m => exact Or.inl ⟨rfl, rfl⟩
  | ok r =>
    cases hld : buildListingData pid r.listings with
    | none =>
      refine Or.inl ⟨?_, ?_⟩ <;> simp [fetch_product_data, hld, noneTriple]
    | some ld =>
      rcases hsl : sellerLoop r.listings seen with ⟨osd, seen2⟩
      cases osd with
      | none =>
        refine Or.inl ⟨?_, ?_⟩ <;> simp [fetch_product_data, hld, hsl, noneTriple]
      | some sd =>
        refine Or.inr ⟨r, ld, sd, rfl, hld, ?_, ?_⟩ <;>
          simp [fetch_product_data, hld, hsl]

theorem fetch_seen_mono (pid : String) (inp : FetchInput) (seen : List String) :
    seen ⊆ (fetch_product_data pid inp seen).seen := by
  cases inp with
  | httpError s => exact fun a h => h
  | networkError m => exact fun a h => h
  | jsonError m => exact fun a h => h
  | ok r =>
    cases hld : buildListingData pid r.listings with
    | none => simp [fetch_product_data, hld]
    | some ld =>
      rcases hsl : sellerLoop r.listings seen with ⟨osd, seen2⟩
      have hmono := sellerLoop_seen_mono r.listings seen
      rw [hsl] at hmono
      cases osd with
      | none => simpa [fetch_product_data, hld, hsl] using hmono
      | some sd => simpa [fetch_product_data, hld, hsl] using hmono

theorem fetch_not_int (pid : String) (inp : FetchInput) (seen : List String) :
    isinstance_int (fetch_product_data pid inp seen).ret.1 = false := by
  rcases fetch_ret_shape pid inp seen with ⟨h, _⟩ | ⟨r, ld, sd, _, _, _, h⟩ <;>
    rw [h] <;> rfl

theorem worker_step_eq (pid : String) (inp : FetchInput) (seen : List String) :
    worker_step pid inp seen =
      (⟨[], [(fetch_product_data pid inp seen).ret], 1⟩,
       (fetch_product_data pid inp seen).seen) := by
  unfold worker_step
  rw [fetch_not_int]
  rfl

theorem write_data_step_sellers (s : Sinks) (t : PyVal × PyVal × PyVal) :
    (write_data_step s t).sellers =
      if t.2.2.isNone then s.sellers else s.sellers ++ t.2.2.dictValues := by
  unfold write_data_step
  by_cases h1 : t.1.truthy <;> by_cases h2 : t.2.1.truthy <;>
    by_cases h3 : t.2.2.isNone <;> simp [h1, h2, h3]

theorem flatMap_recKeys {sd : List (String × PyVal)}
    (h : ∀ p ∈ sd, recKeys p.2 = [p.1]) :
    (sd.map Prod.snd).flatMap recKeys = sd.map Prod.fst := by
  induction sd with
  | nil => rfl
  | cons p sd ih =>
    simp only [List.map_cons, List.flatMap_cons,
      h p (List.mem_cons_self p sd)]
    rw [ih fun q hq => h q (List.mem_cons_of_mem p hq)]
    rfl

theorem run_step_seen_mono (st : RunState) (a : String × FetchInput) :
    st.seen ⊆ (run_step st a).seen := by
  unfold run_step
  rw [worker_step_eq]
  exact fetch_seen_mono a.1 a.2 st.seen

theorem run_step_sellers (st : RunState) (a : String × FetchInput) :
    (run_step st a).sinks.sellers = st.sinks.sellers
  ∨ ∃ r sd, a.2 = .ok r
      ∧ sellerLoop r.listings st.seen = (some sd, (run_step st a).seen)
      ∧ (run_step st a).sinks.sellers = st.sinks.sellers ++ sd.map Prod.snd
      ∧ (∀ p ∈ sd, recKeys p.2 = [p.1]) := by
  have hrs : (run_step st a).sinks =
      write_data_step st.sinks (fetch_product_data a.1 a.2 st.seen).ret := by
    unfold run_step
    rw [worker_step_eq]
    rfl
  have hseen : (run_step st a).seen = (fetch_product_data a.1 a.2 st.seen).seen := by
    unfold run_step
    rw [worker_step_eq]
  rcases fetch_ret_shape a.1 a.2 st.seen with ⟨h, h2⟩ | ⟨r, ld, sd, hok, hld, hsl, h⟩
  · left
    rw [hrs, write_data_step_sellers, h]
    rfl
  · right
    refine ⟨r, sd, hok, hseen ▸ hsl, ?_, ?_⟩
    · rw [hrs, write_data_step_sellers, h]
      rfl
    · intro p hp
      obtain ⟨hseen2, hfresh, hnd, hiff, hentry⟩ :=
        sellerLoop_success r.listings st.seen sd
          (fetch_product_data a.1 a.2 st.seen).seen hsl
      obtain ⟨pre, l, post, _, _, _, hrec⟩ := hentry p.1 p.2 hp
      exact mkSellerRecord_recKeys hrec

theorem run_step_inv (st : RunState) (a : String × FetchInput)
    (h : SinkInv st) : SinkInv (run_step st a) := by
  obtain ⟨hnd, hsub⟩ := h
  rcases run_step_sellers st a with heq | ⟨r, sd, hok, hsl, heq, hrk⟩
  · constructor
    · unfold sellerSinkKeys at hnd ⊢
      rw [heq]
      exact hnd
    · intro k hk
      unfold sellerSinkKeys at hk
      rw [heq] at hk
      exact run_step_seen_mono st a (hsub k hk)
  · obtain ⟨hseen2, hfresh, hnd2, hiff, hentry⟩ :=
      sellerLoop_success r.listings st.seen sd (run_step st a).seen hsl
    have hkeys : sellerSinkKeys (run_step st a) =
        sellerSinkKeys st ++ sd.map Prod.fst := by
      unfold sellerSinkKeys
      rw [heq, List.flatMap_append, flatMap_recKeys hrk]
    constructor
    · rw [hkeys]
      exact List.Nodup.append hnd hnd2
        (fun k hk1 hk2 => hfresh k hk2 (hsub k hk1))
    · intro k hk
      rw [hkeys] at hk
      rcases List.mem_append.mp hk with h1 | h1
      · exact run_step_seen_mono st a (hsub k h1)
      · exact (hseen2 k).mpr (Or.inl h1)

theorem run_pipeline_inv (attempts : List (String × FetchInput)) :
    SinkInv (run_pipeline attempts) := by
  have hgen : ∀ st, SinkInv st → SinkInv (attempts.foldl run_step st) := by
    induction attempts with
    | nil => exact fun st h => h
    | cons a as ih => exact fun st h => ih (run_step st a) (run_step_inv st a h)
  exact hgen initState ⟨List.nodup_nil, fun k hk => absurd hk (by simp [sellerSinkKeys, initState])⟩

theorem run_step_fresh (st : RunState) (a : String × FetchInput) (k : String)
    (h1 : k ∈ sellerSinkKeys (run_step st a)) (h2 : k ∉ sellerSinkKeys st) :
    k ∉ st.seen ∧ k ∈ (run_step st a).seen := by
  rcases run_step_sellers st a with heq | ⟨r, sd, hok, hsl, heq, hrk⟩
  · exact absurd (by unfold sellerSinkKeys at h1 ⊢; rwa [heq] at h1) h2
  · obtain ⟨hseen2, hfresh, hnd2, hiff, hentry⟩ :=
      sellerLoop_success r.listings st.seen sd (run_step st a).seen hsl
    have hkeys : sellerSinkKeys (run_step st a) =
        sellerSinkKeys st ++ sd.map Prod.fst := by
      unfold sellerSinkKeys
      rw [heq, List.flatMap_append, flatMap_recKeys hrk]
    rw [hkeys] at h1
    rcases List.mem_append.mp h1 with h3 | h3
    · exact absurd h3 h2
    · exact ⟨hfresh k h3, (hseen2 k).mpr (Or.inl h3)⟩

theorem run_step_progress (st : RunState) (a : String × FetchInput) :
    (run_step st a).progress = st.progress + 1 := by
  unfold run_step
  rw [worker_step_eq]

theorem run_queue_progress (env : String → FetchInput) (ids : List String) :
    ∀ (fuel : Nat) (st : RunState), ids.length ≤ fuel →
      (run_queue env fuel ids st).progress = st.progress + ids.length := by
  induction ids with
  | nil =>
    intro fuel st _
    cases fuel <;> simp [run_queue]
  | cons pid rest ih =>
    intro fuel st h
    cases fuel with
    | zero => simp at h
    | succ fuel =>
      unfold run_queue
      rw [worker_step_eq]
      simp only [List.append_nil]
      rw [ih fuel (run_step st (pid, env pid))
          (by simpa using Nat.lt_succ_iff.mp (Nat.lt_of_lt_of_le (Nat.lt_succ_self _) h))]
      rw [run_step_progress]
      simp [List.length_cons]
      omega

theorem fetch_requests (pid : String) (inp : FetchInput) (seen : List String) :
    (fetch_product_data pid inp seen).requests = [request_payload] := by
  cases inp with
  | httpError s => rfl
  | networkError m => rfl
  | jsonError m => rfl
  | ok r =>
    cases hld : buildListingData pid r.listings with
    | none => simp [fetch_product_data, hld]
    | some ld =>
      rcases hsl : sellerLoop r.listings seen with ⟨osd, seen2⟩
      cases osd with
      | none => simp [fetch_product_data, hld, hsl]
      | some sd => simp [fetch_product_data, hld, hsl]

/-! ### Claim theorems -/

/-- C2 (code bug): the spec requires a failed fetch to re-enqueue the
ItemId for a retry after a backoff; the worker instead forwards the
failure triple `(None, None, None)` to the data queue and acknowledges the
item, re-enqueueing nothing.  Concretely, for item `103` whose fetch gets
HTTP 503, nothing is put back on the product queue, the failure triple is
forwarded, and the failure was logged — the item is dropped without
retry. -/
theorem C2_failure_not_requeued :
    (worker_step "103" (.httpError 503) []).1.requeued = []
  ∧ (worker_step "103" (.httpError 503) []).1.forwarded = [noneTriple]
  ∧ (fetch_product_data "103" (.httpError 503) []).log =
      [.fetchHttpFail "103" 503] :=
  ⟨rfl, rfl, rfl⟩

/-- C10 (confirmed): for every product id, network input and global seller
set, the fetch return's first component is never a Python `int` — it is
either `None` (failure triple) or a dict (success) — so the worker's
`isinstance(product_data, int)` re-enqueue branch is unreachable, and the
worker forwards each normally returned fetch result to the data queue
exactly once. -/
theorem C10_isinstance_int_unreachable (pid : String) (inp : FetchInput)
    (seen : List String) :
    isinstance_int (fetch_product_data pid inp seen).ret.1 = false
  ∧ ((fetch_product_data pid inp seen).ret = noneTriple
      ∨ ∃ pd ld sd, (fetch_product_data pid inp seen).ret =
          (.dict pd, .list ld, .dict sd))
  ∧ (worker_step pid inp seen).1.requeued = []
  ∧ (worker_step pid inp seen).1.forwarded =
      [(fetch_product_data pid inp seen).ret] := by
  refine ⟨fetch_not_int pid inp seen, ?_, ?_, ?_⟩
  · rcases fetch_ret_shape pid inp seen with ⟨h, _⟩ | ⟨r, ld, sd, _, _, _, h⟩
    · exact Or.inl h
    · exact Or.inr ⟨_, ld, sd, by rw [h]; rfl⟩
  · rw [worker_step_eq]
  · rw [worker_step_eq]

/-- C5 (confirmed): the fetch operation is total — every attempt returns
either the failure triple or the three record shapes, never an escaping
exception — and each failure class both returns the failure triple and
emits the error record carrying the product id together with the HTTP
status (non-ok response), the network error, the JSON decode error, or the
`KeyError` of a listing missing a required field. -/
theorem C5_fetch_never_raises (pid : String) (seen : List String) :
    (∀ inp, (fetch_product_data pid inp seen).ret = noneTriple
      ∨ ∃ pd ld sd, (fetch_product_data pid inp seen).ret =
          (.dict pd, .list ld, .dict sd))
  ∧ (∀ status, (fetch_product_data pid (.httpError status) seen).ret = noneTriple
      ∧ (fetch_product_data pid (.httpError status) seen).log =
          [.fetchHttpFail pid status])
  ∧ (∀ msg, (fetch_product_data pid (.networkError msg) seen).ret = noneTriple
      ∧ (fetch_product_data pid (.networkError msg) seen).log =
          [.fetchNetFail pid msg])
  ∧ (∀ msg, (fetch_product_data pid (.jsonError msg) seen).ret = noneTriple
      ∧ (fetch_product_data pid (.jsonError msg) seen).log =
          [.fetchParseFail pid msg])
  ∧ (∀ r, buildListingData pid r.listings = Option.none →
      (fetch_product_data pid (.ok r) seen).ret = noneTriple
      ∧ (fetch_product_data pid (.ok r) seen).log =
          [.fetchParseFail pid "KeyError"]) := by
  refine ⟨?_, fun _ => ⟨rfl, rfl⟩, fun _ => ⟨rfl, rfl⟩, fun _ => ⟨rfl, rfl⟩, ?_⟩
  · intro inp
    rcases fetch_ret_shape pid inp seen with ⟨h, _⟩ | ⟨r, ld, sd, _, _, _, h⟩
    · exact Or.inl h
    · exact Or.inr ⟨_, ld, sd, by rw [h]; rfl⟩
  · intro r h
    constructor <;> simp [fetch_product_data, h]

/-- C5 witness: the mid-parse failure clause at a concrete listing with a
missing `price` field. -/
theorem C5_fetch_never_raises_witness :
    (fetch_product_data "9" (.ok (sampleResponse
        [{ sampleListing "A" 1 with price := Option.none }])) []).ret =
      noneTriple :=
  ((C5_fetch_never_raises "9" []).2.2.2.2
    (sampleResponse [{ sampleListing "A" 1 with price := Option.none }])
    (by rfl)).1

/-- C9 counterexample: the page size of the POST body is not configurable —
the body the fetch client sends is the fixed payload whose `size` field is
the literal 50; with a configured page size of 10 the claimed body shape
differs from what is sent. -/
theorem C9_size_not_configurable :
    request_payload = claimPayload 50
  ∧ request_payload ≠ claimPayload 10
  ∧ (fetch_product_data "7" (.httpError 503) []).requests = [request_payload] := by
  refine ⟨rfl, ?_, rfl⟩
  intro h
  have h50 : PyVal.field request_payload "size" = some (.int 50) := rfl
  rw [h] at h50
  have h10 : PyVal.field (claimPayload 10) "size" = some (.int 10) := rfl
  rw [h10] at h50
  have h5 : (10 : Int) = 50 := by
    injection h50 with h1
    injection h1
  exact absurd h5 (by decide)

/-- C9 amended: for every ItemId the fetch client issues exactly one POST
whose JSON body equals the fixed filter/sort payload with the page size
fixed at the literal 50 (it is not configurable). -/
theorem C9_fixed_payload (pid : String) (inp : FetchInput) (seen : List String) :
    (fetch_product_data pid inp seen).requests = [request_payload]
  ∧ request_payload = claimPayload 50 :=
  ⟨fetch_requests pid inp seen, rfl⟩

/-- C4 (confirmed): driving the worker loop over any non-empty identifier
list (with enough fuel to drain the queue), the total number of progress
advances equals the number of identifiers; no worker iteration ever
re-enqueues, so retries contribute no extra advances. -/
theorem C4_progress_equals_ids (env : String → FetchInput) (ids : List String)
    (fuel : Nat) (_hne : ids ≠ []) (hfuel : ids.length ≤ fuel) :
    (run_queue env fuel ids initState).progress = ids.length
  ∧ ∀ pid inp seen, (worker_step pid inp seen).1.requeued = [] := by
  constructor
  · have h := run_queue_progress env ids fuel initState hfuel
    simpa [initState] using h
  · intro pid inp seen
    rw [worker_step_eq]

/-- C4 witness: a two-item run under an all-503 network uses exactly two
progress advances. -/
theorem C4_progress_equals_ids_witness :
    (run_queue (fun _ => FetchInput.httpError 503) 2 ["5", "6"] initState).progress
      = 2 :=
  (C4_progress_equals_ids (fun _ => FetchInput.httpError 503) ["5", "6"] 2
    (by decide) (by decide)).1

/-- C1 counterexample: the claim's final clause fails — a SellerRecord
appended to the seller sink has a key that IS already in the membership set
at the moment of the sink write, because `fetch_product_data` adds the key
to `seen_sellers` when it builds the outcome, before the writer runs.  In
the one-success run below, the forwarded seller dict holds key `A`, the
set already contains `A` when the writer appends, and the record is
appended anyway. -/
theorem C1_key_already_member_at_write :
    (fetch_product_data "101" (.ok (sampleResponse [sampleListing "A" 5]))
        []).ret.2.2.dictKeys = ["A"]
  ∧ "A" ∈ (fetch_product_data "101" (.ok (sampleResponse [sampleListing "A" 5]))
        []).seen
  ∧ sellerSinkKeys (run_pipeline
        [("101", .ok (sampleResponse [sampleListing "A" 5]))]) = ["A"]
  ∧ (run_pipeline [("101", .ok (sampleResponse [sampleListing "A" 5]))]).seen
      = ["A"] :=
  ⟨rfl, by decide, rfl, rfl⟩

/-- C1 amended: across any whole run, each distinct sellerKey is appended
to the seller sink at most once (the appended key sequence is duplicate
free), the membership set of seller keys only ever grows, every appended
key is a member of the set once written, and every newly appended key was
not in the set at the moment the fetch step admitted it (adding it then) —
though by sink-append time the key is already a member, since admission
happens in the fetch client rather than at the write itself. -/
theorem C1_seller_dedup_invariants (attempts : List (String × FetchInput)) :
    (sellerSinkKeys (run_pipeline attempts)).Nodup
  ∧ (∀ k ∈ sellerSinkKeys (run_pipeline attempts),
      k ∈ (run_pipeline attempts).seen)
  ∧ (∀ st a, st.seen ⊆ (run_step st a).seen)
  ∧ (∀ st a k, k ∈ sellerSinkKeys (run_step st a) →
      k ∉ sellerSinkKeys st → k ∉ st.seen ∧ k ∈ (run_step st a).seen) := by
  obtain ⟨h1, h2⟩ := run_pipeline_inv attempts
  exact ⟨h1, h2, run_step_seen_mono, run_step_fresh⟩

/-- C1 witness: on the sample run (two successes sharing seller `A`, one
failure), seller `A` is appended exactly once and is in the final set. -/
theorem C1_seller_dedup_invariants_witness :
    (sellerSinkKeys (run_pipeline sampleAttempts)).Nodup
  ∧ "A" ∈ (run_pipeline sampleAttempts).seen :=
  ⟨(C1_seller_dedup_invariants sampleAttempts).1,
   (C1_seller_dedup_invariants sampleAttempts).2.1 "A" (by decide)⟩

/-- C3 counterexample: the effective writer (the second `write_data`
definition, which shadows the first) is not the component that owns the
membership set, and it does not filter against it: in the run below the
fetch client mutates `seen_sellers` (a component other than the writer),
and the writer then appends the record for key `S` even though `S` is
already in the membership set at write time; at component level,
`write_data` appends every value of the received dict without consulting
any set. -/
theorem C3_writer_not_sole_owner :
    (fetch_product_data "202" (.ok (sampleResponse [sampleListing "S" 4]))
        []).seen = ["S"]
  ∧ "S" ∈ (fetch_product_data "202" (.ok (sampleResponse [sampleListing "S" 4]))
        []).seen
  ∧ sellerSinkKeys (run_pipeline
        [("202", .ok (sampleResponse [sampleListing "S" 4]))]) = ["S"]
  ∧ (write_data_step ⟨[], [], []⟩
        (.none, .none, .dict [("S", sampleSellerRecord "S" 4)])).sellers
      = [sampleSellerRecord "S" 4] :=
  ⟨rfl, by decide, rfl, rfl⟩

/-- C3 amended: the effective writer appends every SellerRecord of each
received seller dict unconditionally, never reading or extending the
membership set (the set does not even occur in its state); the filtering
against the process-wide set happens in the fetch client, whose seller map
admits exactly the keys not yet in the set, adding each admitted key to the
set itself. -/
theorem C3_writer_appends_all (s : Sinks) (t : PyVal × PyVal × PyVal)
    (xs : List (String × PyVal)) (ht : t.2.2 = .dict xs)
    (pid : String) (r : RawResponse) (seen : List String)
    (sd : List (String × PyVal))
    (h : (fetch_product_data pid (.ok r) seen).ret.2.2 = .dict sd) :
    (write_data_step s t).sellers = s.sellers ++ xs.map Prod.snd
  ∧ (∀ k ∈ sd.map Prod.fst,
      k ∉ seen ∧ k ∈ (fetch_product_data pid (.ok r) seen).seen) := by
  constructor
  · rw [write_data_step_sellers, ht]
    rfl
  · rcases fetch_ret_shape pid (.ok r) seen with ⟨_, h2⟩ |
      ⟨r', ld, sd', hok, hld, hsl, hret⟩
    · rw [h] at h2
      cases h2
    · injection hok with h3
      rw [← h3] at hsl hret
      have hsd : PyVal.dict sd' = PyVal.dict sd := by
        rw [hret] at h
        exact h
      injection hsd with h4
      rw [h4] at hsl
      obtain ⟨hseen2, hfresh, _, _, _⟩ :=
        sellerLoop_success r.listings seen sd
          (fetch_product_data pid (.ok r) seen).seen hsl
      exact fun k hk => ⟨hfresh k hk, (hseen2 k).mpr (Or.inl hk)⟩

/-- C3 witness: concrete instantiation of the amended writer/fetch split. -/
theorem C3_writer_appends_all_witness :
    (write_data_step ⟨[], [], []⟩
        (.none, .none, .dict [("T", sampleSellerRecord "T" 2)])).sellers
      = [sampleSellerRecord "T" 2] :=
  (C3_writer_appends_all ⟨[], [], []⟩
    (.none, .none, .dict [("T", sampleSellerRecord "T" 2)])
    [("T", sampleSellerRecord "T" 2)] rfl
    "404" (sampleResponse [sampleListing "T" 2]) []
    [("T", sampleSellerRecord "T" 2)] rfl).1

/-- C6 counterexample: duplicates within one response collapse to the
FIRST-seen listing's seller fields, not the last-seen — a response listing
seller `A` twice (ratings 5 then 3) yields the record with rating 5 — and
the map does not have one entry per distinct sellerKey of the response
when a key is already in the process-wide set: a second fetch seeing only
seller `B` again yields an empty map. -/
theorem C6_first_seen_wins :
    (fetch_product_data "301" (.ok (sampleResponse
        [sampleListing "A" 5, sampleListing "A" 3])) []).ret.2.2.dictKeys = ["A"]
  ∧ (fetch_product_data "301" (.ok (sampleResponse
        [sampleListing "A" 5, sampleListing "A" 3])) []).ret.2.2.dictValues.map
        sellerRatingOf = [some 5]
  ∧ (sampleListing "A" 3).sellerRating = some 3
  ∧ [some (5 : Int)] ≠ [some (3 : Int)]
  ∧ (fetch_product_data "302" (.ok (sampleResponse [sampleListing "B" 1]))
        (fetch_product_data "300" (.ok (sampleResponse [sampleListing "B" 1]))
          []).seen).ret.2.2.dictKeys = [] :=
  ⟨rfl, rfl, rfl, by decide, rfl⟩

/-- C6 amended: for every successful fetch response, the returned seller
map has exactly one entry per distinct sellerKey of the response's
listings that is not already in the process-wide set, and when a sellerKey
appears on multiple listings in one response, the entry holds the seller
fields of the FIRST such listing. -/
theorem C6_seller_map_first_occurrence (pid : String) (r : RawResponse)
    (seen : List String) (sd : List (String × PyVal))
    (h : (fetch_product_data pid (.ok r) seen).ret.2.2 = .dict sd) :
    (sd.map Prod.fst).Nodup
  ∧ (∀ k, k ∈ sd.map Prod.fst ↔
      k ∈ r.listings.filterMap RawListing.sellerKey ∧ k ∉ seen)
  ∧ (∀ p ∈ sd, ∃ pre l post, r.listings = pre ++ l :: post
      ∧ l.sellerKey = some p.1
      ∧ (∀ l' ∈ pre, l'.sellerKey ≠ some p.1)
      ∧ mkSellerRecord p.1 l = some p.2) := by
  rcases fetch_ret_shape pid (.ok r) seen with ⟨_, h2⟩ |
      ⟨r', ld, sd', hok, hld, hsl, hret⟩
  · rw [h] at h2
    cases h2
  · injection hok with h3
    rw [← h3] at hsl hret
    have hsd : PyVal.dict sd' = PyVal.dict sd := by
      rw [hret] at h
      exact h
    injection hsd with h4
    rw [h4] at hsl
    obtain ⟨_, _, hnd, hiff, hentry⟩ :=
      sellerLoop_success r.listings seen sd
        (fetch_product_data pid (.ok r) seen).seen hsl
    exact ⟨hnd, hiff, fun p hp => hentry p.1 p.2 hp⟩

/-- C6 witness: the amended statement at a concrete fresh single-listing
response. -/
theorem C6_seller_map_first_occurrence_witness :
    ([("A", sampleSellerRecord "A" 5)].map
      (Prod.fst (α := String) (β := PyVal))).Nodup :=
  (C6_seller_map_first_occurrence "305" (sampleResponse [sampleListing "A" 5])
    [] [("A", sampleSellerRecord "A" 5)] rfl).1

theorem extractLoop_all_locs (urls : List UrlEntry) :
    ∀ acc, (∀ u ∈ urls, u.loc ≠ Option.none) →
      extractLoop urls acc =
        (acc ++ urls.filterMap
          (fun u => u.loc.bind (fun t => searchProductId t.toList)), false) := by
  induction urls with
  | nil => intro acc _; simp [extractLoop]
  | cons u us ih =>
    intro acc h
    cases hu : u.loc with
    | none => exact absurd hu (h u (List.mem_cons_self u us))
    | some txt =>
      have hrest := fun v hv => h v (List.mem_cons_of_mem u hv)
      cases hs : searchProductId txt.toList with
      | none =>
        have hs' : searchProductId txt.data = Option.none := hs
        simp only [extractLoop, hu, hs]
        rw [ih acc hrest]
        simp [List.filterMap_cons, hu, hs']
      | some i =>
        have hs' : searchProductId txt.data = some i := hs
        simp only [extractLoop, hu, hs]
        rw [ih (acc ++ [i]) hrest]
        simp [List.filterMap_cons, hu, hs']

/-- C8 (confirmed): the identifier extractor returns, for a well-formed
category sitemap (each `<url>` carrying a `<loc>`), the `/product/<id>/`
matches in document order without deduplication; a malformed document
reports a parse error and yields the empty sequence; the concrete document
below shows id `101` extracted twice, a no-match URL skipped, and
`/product/99x/` rejected by the pattern. -/
theorem C8_extract_product_ids (msg : String) (urls : List UrlEntry) :
    extract_product_ids (.malformed msg) = ([], true)
  ∧ ((∀ u ∈ urls, u.loc ≠ Option.none) →
      extract_product_ids (.parsed urls) =
        (urls.filterMap
          (fun u => u.loc.bind (fun t => searchProductId t.toList)), false))
  ∧ extract_product_ids (.parsed
      [⟨some "/x/product/101/a"⟩, ⟨some "no-id-here"⟩, ⟨some "/product/99x/"⟩,
       ⟨some "/product/102/"⟩, ⟨some "/y/product/101/b"⟩])
      = (["101", "102", "101"], false) := by
  refine ⟨rfl, ?_, rfl⟩
  intro h
  have h2 := extractLoop_all_locs urls [] h
  simpa [extract_product_ids] using h2

/-- C8 witness: a one-url document with a matching path. -/
theorem C8_extract_product_ids_witness :
    extract_product_ids (.parsed [⟨some "/product/7/"⟩]) = (["7"], false) :=
  (C8_extract_product_ids "bad" [⟨some "/product/7/"⟩]).2.1 (by decide)

theorem extractOne_foldl_best (term : String) (cs : List String) :
    ∀ b : String,
      ∃ res : String,
        cs.foldl (fun best c' =>
            if similarity_score term c' > best.2
            then (c', similarity_score term c') else best)
          (b, similarity_score term b) = (res, similarity_score term res)
      ∧ (∀ c ∈ cs, similarity_score term c ≤ similarity_score term res)
      ∧ similarity_score term b ≤ similarity_score term res
      ∧ (res = b
         ∨ ∃ pre post, cs = pre ++ res :: post
             ∧ similarity_score term b < similarity_score term res
             ∧ (∀ c ∈ pre,
                 similarity_score term c < similarity_score term res)) := by
  induction cs with
  | nil =>
    intro b
    exact ⟨b, rfl, by simp, le_refl _, Or.inl rfl⟩
  | cons c cs ih =>
    intro b
    by_cases hc : similarity_score term c > similarity_score term b
    · obtain ⟨res, hfold, hall, hble, hcase⟩ := ih c
      refine ⟨res, ?_, ?_, le_of_lt (lt_of_lt_of_le hc hble), ?_⟩
      · rw [List.foldl_cons, if_pos hc]
        exact hfold
      · intro c' hc'
        rcases List.mem_cons.mp hc' with h1 | h1
        · exact h1 ▸ hble
        · exact hall c' h1
      · rcases hcase with h1 | ⟨pre, post, hsplit, hlt, hpre⟩
        · refine Or.inr ⟨[], cs, by simp [h1], ?_, by simp⟩
          rw [h1]
          exact hc
        · refine Or.inr ⟨c :: pre, post, by simp [hsplit], lt_trans hc hlt, ?_⟩
          intro c' hc'
          rcases List.mem_cons.mp hc' with h2 | h2
          · exact h2 ▸ hlt
          · exact hpre c' h2
    · obtain ⟨res, hfold, hall, hble, hcase⟩ := ih b
      have hcle : similarity_score term c ≤ similarity_score term b :=
        le_of_not_lt hc
      refine ⟨res, ?_, ?_, hble, ?_⟩
      · rw [List.foldl_cons, if_neg hc]
        exact hfold
      · intro c' hc'
        rcases List.mem_cons.mp hc' with h1 | h1
        · exact h1 ▸ le_trans hcle hble
        · exact hall c' h1
      · rcases hcase with h1 | ⟨pre, post, hsplit, hlt, hpre⟩
        · exact Or.inl h1
        · refine Or.inr ⟨c :: pre, post, by simp [hsplit], hlt, ?_⟩
          intro c' hc'
          rcases List.mem_cons.mp hc' with h2 | h2
          · exact h2 ▸ lt_of_le_of_lt hcle hlt
          · exact hpre c' h2

theorem extractOne_best (term : String) (names : List String)
    (hne : names ≠ []) :
    ∃ res, extractOne term names = some (res, similarity_score term res)
  ∧ (∀ n ∈ names, similarity_score term n ≤ similarity_score term res)
  ∧ ∃ pre post, names = pre ++ res :: post
      ∧ (∀ n ∈ pre, similarity_score term n < similarity_score term res) := by
  cases names with
  | nil => exact absurd rfl hne
  | cons c cs =>
    obtain ⟨res, hfold, hall, hble, hcase⟩ := extractOne_foldl_best term cs c
    refine ⟨res, ?_, ?_, ?_⟩
    · exact congrArg some hfold
    · intro n hn
      rcases List.mem_cons.mp hn with h1 | h1
      · exact h1 ▸ hble
      · exact hall n h1
    · rcases hcase with h1 | ⟨pre, post, hsplit, hlt, hpre⟩
      · exact ⟨[], cs, by simp [h1], by simp⟩
      · refine ⟨c :: pre, post, by simp [hsplit], ?_⟩
        intro n hn
        rcases List.mem_cons.mp hn with h2 | h2
        · exact h2 ▸ hlt
        · exact hpre n h2

theorem find?_first {α : Type} (p : α → Bool) (l : List α) (d : α)
    (h : l.find? p = some d) :
    p d = true ∧ ∃ pre post, l = pre ++ d :: post
      ∧ ∀ a ∈ pre, p a = false := by
  induction l with
  | nil => cases h
  | cons a as ih =>
    cases hp : p a with
    | true =>
      rw [List.find?_cons_of_pos _ hp] at h
      injection h with h1
      subst h1
      exact ⟨hp, [], as, rfl, by simp⟩
    | false =>
      rw [List.find?_cons_of_neg _ (by simp [hp])] at h
      obtain ⟨h1, pre, post, h2, h3⟩ := ih h
      refine ⟨h1, a :: pre, post, by simp [h2], ?_⟩
      intro x hx
      rcases List.mem_cons.mp hx with h4 | h4
      · exact h4 ▸ hp
      · exact h3 x h4

theorem first_split_unique {α : Type} {p1 p2 s1 s2 : List α} {x : α}
    (h : p1 ++ x :: s1 = p2 ++ x :: s2)
    (hp1 : x ∉ p1) (hp2 : x ∉ p2) : p1 = p2 := by
  induction p1 generalizing p2 with
  | nil =>
    cases p2 with
    | nil => rfl
    | cons b p2 =>
      have hx : x = b := by
        have := congrArg (fun l => List.head? l) h
        simpa using this
      exact absurd (hx ▸ List.mem_cons_self b p2) hp2
  | cons a p1 ih =>
    cases p2 with
    | nil =>
      have hx : a = x := by
        have := congrArg (fun l => List.head? l) h
        simpa using this
      exact absurd (hx ▸ List.mem_cons_self a p1) hp1
    | cons b p2 =>
      have hab : a = b := by
        have := congrArg (fun l => List.head? l) h
        simpa using this
      have htail : p1 ++ x :: s1 = p2 ++ x :: s2 := by
        have := congrArg (fun l => List.tail l) h
        simpa using this
      rw [hab, ih htail (fun hx => hp1 (List.mem_cons_of_mem a hx))
        (fun hx => hp2 (List.mem_cons_of_mem b hx))]

/-- C7 (confirmed, with the external fuzzy scorer modelled from the spec
as normalized Levenshtein similarity): the category matcher returns `None`
on an empty category list; on a non-empty list it returns the first
category achieving the maximum similarity score (all categories score no
higher, all earlier ones score strictly lower); and the search term
`pokeman` against `["pokemon", "magic", "yugioh"]` resolves to
`pokemon`. -/
theorem C7_category_matcher (categories : List CategoryDescriptor)
    (term : String) :
    (categories = [] → find_best_category_match categories term = Option.none)
  ∧ (categories ≠ [] → ∃ d pre post,
        find_best_category_match categories term = some d
      ∧ categories = pre ++ d :: post
      ∧ (∀ c ∈ categories,
          similarity_score term c.category ≤ similarity_score term d.category)
      ∧ (∀ c ∈ pre,
          similarity_score term c.category < similarity_score term d.category))
  ∧ find_best_category_match sampleCategories "pokeman" =
      some ⟨"pokemon", "http://www.tcgplayer.com/sitemap/pokemon.xml"⟩ := by
  refine ⟨?_, ?_, rfl⟩
  · intro he
    rw [he]
    rfl
  · intro hne
    have hnames : categories.map (fun c => c.category) ≠ [] := by
      simpa using hne
    obtain ⟨res, hext, hall, preN, postN, hsplitN, hpreN⟩ :=
      extractOne_best term (categories.map (fun c => c.category)) hnames
    have hresmem : res ∈ categories.map (fun c => c.category) := by
      rw [hsplitN]
      exact List.mem_append.mpr (Or.inr (List.mem_cons_self res postN))
    obtain ⟨c0, hc0mem, hc0⟩ := List.mem_map.mp hresmem
    have hfindsome : (categories.find? (fun c => c.category == res)).isSome := by
      rw [List.find?_isSome]
      exact ⟨c0, hc0mem, by simp [hc0]⟩
    obtain ⟨d, hd⟩ := Option.isSome_iff_exists.mp hfindsome
    obtain ⟨hpd, preC, postC, hsplitC, hpreC⟩ := find?_first _ _ _ hd
    have hdres : d.category = res := by simpa using hpd
    have hfb : find_best_category_match categories term = some d := by
      unfold find_best_category_match
      rw [hext]
      exact hd
    refine ⟨d, preC, postC, hfb, hsplitC, ?_, ?_⟩
    · intro c hc
      rw [hdres]
      exact hall c.category (List.mem_map.mpr ⟨c, hc, rfl⟩)
    · have hmapsplit : categories.map (fun c => c.category) =
          preC.map (fun c => c.category) ++ res ::
            postC.map (fun c => c.category) := by
        rw [hsplitC]
        simp [hdres]
      have hpremap : preC.map (fun c => c.category) = preN := by
        refine first_split_unique (hmapsplit.symm.trans hsplitN) ?_ ?_
        · intro hx
          obtain ⟨c, hcmem, hceq⟩ := List.mem_map.mp hx
          have := hpreC c hcmem
          rw [hceq] at this
          simp at this
        · intro hx
          exact absurd rfl (ne_of_lt (hpreN res hx))
      intro c hc
      rw [hdres]
      exact hpreN c.category (hpremap ▸ List.mem_map.mpr ⟨c, hc, rfl⟩)

/-- C7 witness: the spec's test case, plus the empty-input branch. -/
theorem C7_category_matcher_witness :
    find_best_category_match sampleCategories "pokeman" =
      some ⟨"pokemon", "http://www.tcgplayer.com/sitemap/pokemon.xml"⟩
  ∧ find_best_category_match ([] : List CategoryDescriptor) "pokeman" =
      Option.none :=
  ⟨(C7_category_matcher sampleCategories "pokeman").2.2,
   (C7_category_matcher [] "pokeman").1 rfl⟩

end Scraper
